import Mathlib

/-!
Verification of `ExtractTablesFromPdf.py`: shallow embedding of the
caption locator, the table normalizer and the HTML assembly, together
with theorems settling the specification claims C1 - C10.
-/

set_option autoImplicit false

namespace ExtractTables

/-! ### Character classes (Python `re` classes restricted to the characters
the program manipulates: `\s`, `\d`, `\w`, and the caption token class). -/

/-- Python `\s` for the ASCII range: space, tab, newline, carriage return,
vertical tab, form feed. -/
def isSpaceChar (c : Char) : Bool :=
  c == ' ' || c == '\t' || c == '\n' || c == '\r' || c == '\x0b' || c == '\x0c'

/-- Python `\d` on ASCII: a decimal digit. -/
def isDigitChar (c : Char) : Bool :=
  '0' ≤ c && c ≤ '9'

/-- The character class `[\d\.:]` of the caption pattern at line 44 of
`ExtractTablesFromPdf.py`: a digit, a dot or a colon. -/
def isNumTokChar (c : Char) : Bool :=
  isDigitChar c || c == '.' || c == ':'

/-- Python `\w` on ASCII: letter, digit or underscore (used only to state
the claim-side word-boundary predicate of C3). -/
def isWordChar (c : Char) : Bool :=
  isDigitChar c || ('a' ≤ c && c ≤ 'z') || ('A' ≤ c && c ≤ 'Z') || c == '_'

/-- ASCII lower-casing, as `re.IGNORECASE` uses for the literal `Table`. -/
def lowerChar (c : Char) : Char :=
  if 'A' ≤ c && c ≤ 'Z' then Char.ofNat (c.toNat + 32) else c

/-! ### Generic list/string helpers shared by the embedded functions. -/

/-- Case-insensitive literal match: `matchCaseless pat cs` consumes a run of
characters whose lower-casing equals `pat` and returns the remainder. -/
def matchCaseless : List Char → List Char → Option (List Char)
  | [], cs => some cs
  | _ :: _, [] => none
  | p :: ps, c :: cs => if lowerChar c = p then matchCaseless ps cs else none

/-- Drop the leading run of whitespace characters (Python `\s*`, greedy). -/
def dropSpaces : List Char → List Char
  | [] => []
  | c :: cs => if isSpaceChar c then dropSpaces cs else c :: cs

/-- Literal (case-sensitive) starts-with test on character lists. -/
def hasPrefixList : List Char → List Char → Bool
  | [], _ => true
  | _ :: _, [] => false
  | p :: ps, c :: cs => p == c && hasPrefixList ps cs

/-- Literal (case-sensitive) substring test on character lists. -/
def hasSubstr (pat : List Char) : List Char → Bool
  | [] => hasPrefixList pat []
  | c :: cs => hasPrefixList pat (c :: cs) || hasSubstr pat cs

/-- Drop a required literal prefix, returning the remainder on success. -/
def dropLiteral : List Char → List Char → Option (List Char)
  | [], cs => some cs
  | _ :: _, [] => none
  | p :: ps, c :: cs => if c = p then dropLiteral ps cs else none

/-- Python `str.strip()` on a character list: remove leading and trailing
whitespace. -/
def stripList (cs : List Char) : List Char :=
  ((dropSpaces (dropSpaces cs).reverse)).reverse

/-- Python `str.strip()` on strings. -/
def pyStrip (s : String) : String :=
  ⟨stripList s.data⟩

/-- Python `str.replace('\n', ' ')`: every newline becomes one space
(line 51 of `ExtractTablesFromPdf.py`). -/
def replaceNl (s : String) : String :=
  ⟨s.data.map (fun c => if c = '\n' then ' ' else c)⟩

/-- Python `str.replace('\n', '<br>')` on a character list
(line 150 of `ExtractTablesFromPdf.py`). -/
def replaceNlBrList : List Char → List Char
  | [] => []
  | c :: cs => (if c = '\n' then "<br>".data else [c]) ++ replaceNlBrList cs

/-- Python `str.replace('\n', '<br>')` on strings. -/
def replaceNlBr (s : String) : String :=
  ⟨replaceNlBrList s.data⟩

/-! ### The caption pattern `re.compile(r'Table\s*[\d\.:]+', re.IGNORECASE)`
and its `search` semantics (lines 44-49 of `ExtractTablesFromPdf.py`). -/

/-- Is the head of the list a `[\d\.:]` character? -/
def headNumTok : List Char → Bool
  | c :: _ => isNumTokChar c
  | [] => false

/-- Does the caption pattern match starting exactly at the head of `cs`:
the literal `Table` case-insensitively, then `\s*`, then at least one
character of `[\d\.:]`? (`\s*` is greedy, and since no whitespace character
is in `[\d\.:]`, a match starting here exists exactly when the first
character after the whitespace run is in `[\d\.:]`.) -/
def matchAt (cs : List Char) : Bool :=
  match matchCaseless "table".data cs with
  | some rest => headNumTok (dropSpaces rest)
  | none => false

/-- `re.search` of the caption pattern: a match starting at some position. -/
def captionSearch : List Char → Bool
  | [] => false
  | c :: cs => matchAt (c :: cs) || captionSearch cs

/-- All splits `(take i, drop i)` of a list, in order of split position. -/
def splitsList : List Char → List (List Char × List Char)
  | [] => [([], [])]
  | c :: cs => ([], c :: cs) :: (splitsList cs).map (fun p => (c :: p.1, p.2))

/-- The matching predicate exactly as claim C3 words it: the text contains
the word `Table` (case-insensitively, and at a word boundary: the character
just before the occurrence, if any, is not a word character) followed by
optional whitespace and a non-empty token of digits, dots or colons.
This is the claim-side definition, to be compared with `captionSearch`,
which embeds the program's regex (which has no word-boundary assertion). -/
def boundarySearchSpec (cs : List Char) : Bool :=
  (splitsList cs).any fun p =>
    (p.1.isEmpty || !(isWordChar (p.1.getLastD '_'))) && matchAt p.2

/-! ### Caption locator (lines 25-53 of `ExtractTablesFromPdf.py`). -/

/-- The bounding box tuple `table._bbox` of the detection engine, in the
bottom-left-origin convention: `(x0, y0, x1, y1)` with `(x0, y0)` the
lower-left and `(x1, y1)` the upper-right corner, so `y1` is the higher
y-value ("top"). The source unpacks it as
`tbl_x0, tbl_y1, tbl_x1, tbl_y0 = table._bbox` (the middle two names are
swapped there; `tbl_y0` in the source is this structure's `y1`). -/
structure TableBBox where
  x0 : Int
  y0 : Int
  x1 : Int
  y1 : Int
deriving DecidableEq, Repr

/-- A rectangle in the text-layer engine's top-left-origin convention,
as passed to `fitz.Rect(x0, y0, x1, y1)`: `y0` is the top edge and `y1`
the bottom edge. -/
structure FitzRect where
  x0 : Int
  y0 : Int
  x1 : Int
  y1 : Int
deriving DecidableEq, Repr

/-- The search rectangle built at lines 33-38 of the source:
`fitz.Rect(tbl_x0 - 20, (page_height - tbl_y0) - search_margin,
tbl_x1 + 20, page_height - tbl_y0)`, where the source's `tbl_y0` is the
fourth component of `table._bbox` (this structure's `y1`). -/
def searchRect (bbox : TableBBox) (pageHeight searchMargin : Int) : FitzRect :=
  { x0 := bbox.x0 - 20
  , y0 := (pageHeight - bbox.y1) - searchMargin
  , x1 := bbox.x1 + 20
  , y1 := pageHeight - bbox.y1 }

/-- The block-scanning loop of `find_table_caption` (lines 46-53): blocks
are visited in reverse order; the first whose text the caption pattern
matches is returned as `block_text.strip().replace('\n', ' ')`; with no
match the empty string is returned. `scanBlocks` is the loop body over the
already-reversed list. -/
def scanBlocks : List String → String
  | [] => ""
  | t :: rest => if captionSearch t.data then replaceNl (pyStrip t) else scanBlocks rest

/-- `find_table_caption` restricted to its text-processing part: the list
of clipped, vertically sorted block texts is scanned bottom-to-top. -/
def findCaption (blocks : List String) : String :=
  scanBlocks blocks.reverse

/-! ### Table normalizer (lines 142-151 of `ExtractTablesFromPdf.py`). -/

/-- Keep a (stripped) column name: the source keeps the columns whose name
is non-empty (`df.columns != ""`) and does not match the regex
`'^Unnamed'` (`~df.columns.str.contains('^Unnamed')`, an anchored search,
i.e. a case-sensitive starts-with test). -/
def keepHeader (h : String) : Bool :=
  !(h == "") && !(hasPrefixList "Unnamed".data h.data)

/-- Select the entries of a list under a boolean mask, as the column
selection `df.loc[:, mask]` does with a per-column boolean mask. -/
def filterMask {α : Type} : List Bool → List α → List α
  | true :: bs, x :: xs => x :: filterMask bs xs
  | false :: bs, _ :: xs => filterMask bs xs
  | _, _ => []

/-- Lines 142-148 of the source on a row-major table: promote row 0 to the
header (`df.columns = df.iloc[0]; df = df[1:]`), strip each header name
(`str.strip()`), and drop every column whose stripped name is empty or
starts with `Unnamed`; the same column mask is applied to every data row.
A table with no rows is skipped (`if df.empty: continue`). -/
def normalizeTable : List (List String) → Option (List String × List (List String))
  | [] => none
  | header :: data =>
    let sh := header.map pyStrip
    let mask := sh.map keepHeader
    some (filterMask mask sh, data.map (filterMask mask))

/-- Line 150 of the source: `df.applymap(lambda x: str(x).replace('\n', '<br>'))`.
`applymap` acts element-wise on the data rows only; the header (the column
index) is not touched. -/
def richTransform (t : List String × List (List String)) : List String × List (List String) :=
  (t.1, t.2.map (fun r => r.map replaceNlBr))

/-- The whole per-table transformation of lines 142-150: normalization
followed by the newline-to-`<br>` substitution on the data cells. -/
def processTable (rows : List (List String)) : Option (List String × List (List String)) :=
  (normalizeTable rows).map richTransform

/-- The placeholder-name pattern as claims C4/C5 and the specification word
it: a fixed prefix token (`Unnamed`), followed by a separator (a non-empty
run of non-word characters) and a number (a non-empty run of digits).
This is the claim-side definition, to be compared with the source's
anchored `'^Unnamed'` test embedded in `keepHeader`. -/
def specPlaceholder (s : String) : Bool :=
  match dropLiteral "Unnamed".data s.data with
  | some rest =>
    let sep := rest.takeWhile (fun c => !(isWordChar c))
    let num := rest.dropWhile (fun c => !(isWordChar c))
    !sep.isEmpty && !num.isEmpty && num.all isDigitChar
  | none => false

/-! ### Serialization escaping (the external tabular-serialization library).
Modelled from the spec: HTML serialization of tabular data is performed by
an external library not under `src/`; the spec states that cell "values
are not re-escaped in rich mode (line-break tokens must survive), and are
escaped in plain mode". The source calls it with `escape=False`
(line 151). -/

/-- HTML-escaping of the three markup-significant characters. -/
def htmlEscapeList : List Char → List Char
  | [] => []
  | c :: cs =>
    (if c = '&' then "&amp;".data
     else if c = '<' then "&lt;".data
     else if c = '>' then "&gt;".data
     else [c]) ++ htmlEscapeList cs

/-- HTML-escaping on strings. -/
def htmlEscape (s : String) : String :=
  ⟨htmlEscapeList s.data⟩

/-- Modelled from the spec: the external serializer renders one data cell
as a `<td>` element, escaping the value exactly when its escape flag is
set; the source passes `escape=False` (rich mode). -/
def serializeCell (escape : Bool) (s : String) : String :=
  "<td>" ++ (if escape then htmlEscape s else s) ++ "</td>"

/-! ### Document assembly (lines 89-93 of `ExtractTablesFromPdf.py`). -/

/-- The heading emitted for one table at line 92 of the source: an `<h3>`
element whose body is the caption string interpolated verbatim by an
f-string. -/
def headingFragment (caption : String) : String :=
  "<h3 style=\"text-align: center; font-weight: bold; margin-top: 40px; padding-bottom: 5px;\">"
    ++ caption ++ "</h3>\n"

/-- The table wrapper emitted at line 93 of the source. -/
def tableFragment (html : String) : String :=
  "<div class=\"table-container\">" ++ html ++ "</div>\n"

/-- The `tables_content` accumulation loop of `create_html_file`
(lines 89-93): for each `(caption, html)` item, the heading fragment and
then the wrapped table fragment are appended. -/
def tablesContent (items : List (String × String)) : String :=
  items.foldl (fun acc it => acc ++ headingFragment it.1 ++ tableFragment it.2) ""

/-! ### Top-level control flow after argument parsing (lines 122-162). -/

/-- Observable outcome of one run of `main` past the file-existence check:
the process exit code, whether the output file was written, and the
messages printed. -/
structure RunResult where
  exitCode : Nat
  outputWritten : Bool
  messages : List String
deriving DecidableEq, Repr

/-- `df.empty` for a row-major table: no rows, or rows with no columns. -/
def dfEmpty (rows : List (List String)) : Bool :=
  rows.isEmpty || (rows.headD []).isEmpty

/-- Lines 126-162 of `main`, over the detected tables (each given as its
raw row-major cell grid together with the caption the locator returned
for it): with zero tables the source prints `No tables found in the PDF.`,
closes the document and returns (the process then exits normally with
code 0 and no output file has been written); otherwise each non-empty
table is normalized and collected, the HTML file is written
unconditionally, and a success message is printed. -/
def runExtraction (tables : List (List (List String) × String))
    (outputPath : String) : RunResult :=
  if tables.length = 0 then
    { exitCode := 0, outputWritten := false
    , messages := ["No tables found in the PDF."] }
  else
    let _extracted := tables.filterMap fun t =>
      if dfEmpty t.1 then none else (processTable t.1).map fun nt => (t.2, nt)
    { exitCode := 0, outputWritten := true
    , messages := ["Successfully saved HTML to: " ++ outputPath] }

/-! ## Helper lemmas -/

theorem filterMask_map_filter {α : Type} (p : α → Bool) :
    ∀ xs : List α, filterMask (xs.map p) xs = xs.filter p := by
  intro xs
  induction xs with
  | nil => rfl
  | cons x xs ih =>
    cases h : p x with
    | true => simp [List.map_cons, h, filterMask, List.filter_cons, ih]
    | false => simp [List.map_cons, h, filterMask, List.filter_cons, ih]

theorem length_filterMask_congr {α β : Type} :
    ∀ (bs : List Bool) (xs : List α) (ys : List β),
      xs.length = bs.length → ys.length = bs.length →
      (filterMask bs xs).length = (filterMask bs ys).length := by
  intro bs
  induction bs with
  | nil =>
    intro xs ys hx hy
    rw [List.length_eq_zero.mp hx, List.length_eq_zero.mp hy]
    rfl
  | cons b bs ih =>
    intro xs ys hx hy
    cases xs with
    | nil => simp at hx
    | cons x xs =>
      cases ys with
      | nil => simp at hy
      | cons y ys =>
        simp only [List.length_cons, Nat.succ.injEq] at hx hy
        cases b with
        | true => simp [filterMask, ih xs ys hx hy]
        | false => simp [filterMask, ih xs ys hx hy]

theorem filterMask_all_true {α : Type} :
    ∀ (bs : List Bool) (xs : List α),
      (∀ b ∈ bs, b = true) → bs.length = xs.length → filterMask bs xs = xs := by
  intro bs
  induction bs with
  | nil =>
    intro xs _ hlen
    rw [(List.length_eq_zero.mp hlen.symm)]
    rfl
  | cons b bs ih =>
    intro xs hall hlen
    cases xs with
    | nil => simp at hlen
    | cons x xs =>
      have hb : b = true := hall b (List.mem_cons_self b bs)
      subst hb
      simp only [List.length_cons, Nat.succ.injEq] at hlen
      simp [filterMask, ih xs (fun c hc => hall c (List.mem_cons_of_mem _ hc)) hlen]

theorem mem_filterMask_map {α : Type} (p : α → Bool) (xs : List α) (y : α)
    (hy : y ∈ filterMask (xs.map p) xs) : p y = true := by
  rw [filterMask_map_filter] at hy
  exact (List.mem_filter.mp hy).2

theorem dropSpaces_spec :
    ∀ cs : List Char, ∃ ws, cs = ws ++ dropSpaces cs ∧ ∀ x ∈ ws, isSpaceChar x = true := by
  intro cs
  induction cs with
  | nil => exact ⟨[], rfl, by simp⟩
  | cons c cs ih =>
    cases h : isSpaceChar c with
    | true =>
      obtain ⟨ws, hws, hall⟩ := ih
      refine ⟨c :: ws, ?_, ?_⟩
      · simp only [dropSpaces, h, if_true, List.cons_append]
        exact congrArg (c :: ·) hws
      · intro x hx
        rcases List.mem_cons.mp hx with rfl | hx
        · exact h
        · exact hall x hx
    | false =>
      exact ⟨[], by simp [dropSpaces, h], by simp⟩

theorem dropSpaces_append (ws : List Char) (c : Char) (rest : List Char)
    (hws : ∀ x ∈ ws, isSpaceChar x = true) (hc : isSpaceChar c = false) :
    dropSpaces (ws ++ c :: rest) = c :: rest := by
  induction ws with
  | nil => simp [dropSpaces, hc]
  | cons w ws ih =>
    have hw : isSpaceChar w = true := hws w (List.mem_cons_self w ws)
    simp only [List.cons_append, dropSpaces, hw, if_true]
    exact ih (fun x hx => hws x (List.mem_cons_of_mem w hx))

theorem numTok_not_space (c : Char) (h : isNumTokChar c = true) : isSpaceChar c = false := by
  by_contra hs
  rw [Bool.not_eq_false] at hs
  simp only [isSpaceChar, Bool.or_eq_true, beq_iff_eq] at hs
  rcases hs with ((((rfl | rfl) | rfl) | rfl) | rfl) | rfl <;> exact absurd h (by decide)

theorem matchCaseless_append :
    ∀ (t r pat : List Char), t.map lowerChar = pat → matchCaseless pat (t ++ r) = some r := by
  intro t
  induction t with
  | nil =>
    intro r pat h
    simp only [List.map_nil] at h
    subst h
    rfl
  | cons c t ih =>
    intro r pat h
    subst h
    simp only [List.map_cons, List.cons_append, matchCaseless, if_pos rfl]
    exact ih r _ rfl

theorem matchCaseless_some :
    ∀ (pat cs rest : List Char), matchCaseless pat cs = some rest →
      ∃ t, cs = t ++ rest ∧ t.map lowerChar = pat := by
  intro pat
  induction pat with
  | nil =>
    intro cs rest h
    simp only [matchCaseless, Option.some.injEq] at h
    exact ⟨[], by simp [h], rfl⟩
  | cons p ps ih =>
    intro cs rest h
    cases cs with
    | nil => simp [matchCaseless] at h
    | cons c cs =>
      simp only [matchCaseless] at h
      by_cases hc : lowerChar c = p
      · rw [if_pos hc] at h
        obtain ⟨t, ht, hmap⟩ := ih cs rest h
        exact ⟨c :: t, by simp [ht], by simp [hmap, hc]⟩
      · rw [if_neg hc] at h
        exact absurd h (by simp)

theorem matchAt_iff (cs : List Char) :
    matchAt cs = true ↔
      ∃ t ws c rest, cs = t ++ (ws ++ c :: rest) ∧
        t.map lowerChar = "table".data ∧ (∀ x ∈ ws, isSpaceChar x = true) ∧
        isNumTokChar c = true := by
  constructor
  · intro h
    unfold matchAt at h
    cases h1 : matchCaseless "table".data cs with
    | none => rw [h1] at h; exact absurd h (by simp)
    | some r =>
      rw [h1] at h
      have h' : headNumTok (dropSpaces r) = true := h
      cases h2 : dropSpaces r with
      | nil => rw [h2] at h'; exact absurd h' (by decide)
      | cons c r2 =>
        rw [h2] at h'
        obtain ⟨t, hcs, hmap⟩ := matchCaseless_some _ _ _ h1
        obtain ⟨ws, hr, hws⟩ := dropSpaces_spec r
        refine ⟨t, ws, c, r2, ?_, hmap, hws, h'⟩
        rw [hcs]
        rw [hr, h2]
  · rintro ⟨t, ws, c, rest, rfl, hmap, hws, hc⟩
    unfold matchAt
    rw [matchCaseless_append t _ _ hmap]
    show headNumTok (dropSpaces (ws ++ c :: rest)) = true
    rw [dropSpaces_append ws c rest hws (numTok_not_space c hc)]
    exact hc

theorem captionSearch_split :
    ∀ cs : List Char, captionSearch cs = true ↔
      ∃ pre suf, cs = pre ++ suf ∧ matchAt suf = true := by
  intro cs
  induction cs with
  | nil =>
    constructor
    · intro h; simp [captionSearch] at h
    · rintro ⟨pre, suf, h, hm⟩
      obtain ⟨rfl, rfl⟩ := List.append_eq_nil.mp h.symm
      exact absurd hm (by decide)
  | cons c cs ih =>
    constructor
    · intro h
      rcases Bool.or_eq_true _ _ |>.mp h with h1 | h2
      · exact ⟨[], c :: cs, rfl, h1⟩
      · obtain ⟨pre, suf, heq, hm⟩ := ih.mp h2
        exact ⟨c :: pre, suf, by rw [heq]; rfl, hm⟩
    · rintro ⟨pre, suf, heq, hm⟩
      cases pre with
      | nil =>
        simp only [List.nil_append] at heq
        subst heq
        exact Bool.or_eq_true _ _ |>.mpr (Or.inl hm)
      | cons p pre =>
        simp only [List.cons_append, List.cons.injEq] at heq
        obtain ⟨rfl, heq⟩ := heq
        exact Bool.or_eq_true _ _ |>.mpr (Or.inr (ih.mpr ⟨pre, suf, heq, hm⟩))

theorem replaceNlBrList_no_nl : ∀ cs : List Char, '\n' ∉ replaceNlBrList cs := by
  intro cs
  induction cs with
  | nil => simp [replaceNlBrList]
  | cons c cs ih =>
    intro h
    rw [replaceNlBrList] at h
    rcases List.mem_append.mp h with h1 | h2
    · by_cases hc : c = '\n'
      · rw [if_pos hc] at h1
        exact absurd h1 (by decide)
      · rw [if_neg hc] at h1
        simp only [List.mem_singleton] at h1
        exact hc h1.symm
    · exact ih h2

theorem replaceNl_no_nl (s : String) : '\n' ∉ (replaceNl s).data := by
  intro h
  have hd : (replaceNl s).data = s.data.map (fun c => if c = '\n' then ' ' else c) := rfl
  rw [hd] at h
  obtain ⟨c, _, hc⟩ := List.mem_map.mp h
  by_cases h' : c = '\n'
  · rw [if_pos h'] at hc
    exact absurd hc (by decide)
  · rw [if_neg h'] at hc
    exact h' hc

theorem scanBlocks_no_nl : ∀ l : List String, '\n' ∉ (scanBlocks l).data := by
  intro l
  induction l with
  | nil => simp [scanBlocks, String.data]
  | cons t rest ih =>
    rw [scanBlocks]
    by_cases h : captionSearch t.data = true
    · rw [if_pos h]
      exact replaceNl_no_nl (pyStrip t)
    · simp only [h, if_false, Bool.false_eq_true]
      exact ih

/-! ## Claim theorems -/

/-- C1 (counterexample): when the caption locator returned the absent
marker (the empty string), the assembler still emits a heading element —
an empty `<h3>` — before the table fragment, so the claim that no heading
element is emitted for such a table is false. -/
theorem c1_empty_caption_heading_emitted :
    tablesContent [("", "<table></table>")] =
      "<h3 style=\"text-align: center; font-weight: bold; margin-top: 40px; padding-bottom: 5px;\"></h3>\n<div class=\"table-container\"><table></table></div>\n" := by
  decide

/-- C1 (amended): a heading fragment containing the caption text is
prepended before every table's fragment unconditionally; when the caption
locator returned the absent marker (empty string), an empty heading
element is still emitted for that table. -/
theorem c1_heading_always_prepended :
    ∀ (items : List (String × String)) (c h : String),
      tablesContent (items ++ [(c, h)]) =
        tablesContent items ++ (headingFragment c ++ tableFragment h) := by
  intro items c h
  unfold tablesContent
  rw [List.foldl_append]
  simp [String.append_assoc]

/-- C2: for every table bounding box in the bottom-left-origin convention
(its top being its higher y-value), page height `H` and search margin `m`,
the caption locator searches exactly the rectangle with left edge
`x0 - 20`, right edge `x1 + 20`, top edge `(H - top) - m` and bottom edge
`H - top`. -/
theorem c2_search_rectangle (bbox : TableBBox) (H m : Int) (hy : bbox.y0 ≤ bbox.y1) :
    searchRect bbox H m =
      { x0 := bbox.x0 - 20
      , y0 := (H - max bbox.y0 bbox.y1) - m
      , x1 := bbox.x1 + 20
      , y1 := H - max bbox.y0 bbox.y1 } := by
  rw [max_eq_right hy]
  rfl

/-- Witness for C2 at the concrete box (40, 10, 200, 50) on a page of
height 800 with margin 75. -/
theorem c2_search_rectangle_witness :
    ((10 : Int) ≤ 50) ∧
      searchRect ⟨40, 10, 200, 50⟩ 800 75 = ⟨20, 675, 220, 750⟩ :=
  ⟨by decide, by rw [c2_search_rectangle ⟨40, 10, 200, 50⟩ 800 75 (by decide)]; decide⟩

/-- C3 (counterexample): the claim's predicate requires the word `Table`
at a word boundary; the program's regex has no word-boundary assertion,
and the two disagree on `"Notable 3"`, which the program accepts although
`Table` occurs there only inside the word `Notable`. -/
theorem c3_no_word_boundary_counterexample :
    captionSearch "Notable 3".data = true ∧
      boundarySearchSpec "Notable 3".data = false := by
  decide

/-- C3 (amended): the caption-matching predicate accepts a text exactly
when it contains the literal `Table` case-insensitively — at any position,
with no word-boundary requirement — followed by optional whitespace and a
non-empty token of digits, dots or colons; `"table 3.2 Results"` is
accepted and `"Tabled results"` is rejected (the latter because a
digit/dot/colon token must follow `Table`, not because of a boundary). -/
theorem c3_caption_pattern_characterization :
    (∀ cs : List Char, captionSearch cs = true ↔
        ∃ pre t ws c rest, cs = pre ++ (t ++ (ws ++ c :: rest)) ∧
          t.map lowerChar = "table".data ∧ (∀ x ∈ ws, isSpaceChar x = true) ∧
          isNumTokChar c = true) ∧
      captionSearch "table 3.2 Results".data = true ∧
      captionSearch "Tabled results".data = false := by
  refine ⟨?_, by decide, by decide⟩
  intro cs
  rw [captionSearch_split]
  constructor
  · rintro ⟨pre, suf, rfl, hm⟩
    obtain ⟨t, ws, c, rest, rfl, hmap, hws, hc⟩ := (matchAt_iff suf).mp hm
    exact ⟨pre, t, ws, c, rest, rfl, hmap, hws, hc⟩
  · rintro ⟨pre, t, ws, c, rest, rfl, hmap, hws, hc⟩
    exact ⟨pre, t ++ (ws ++ c :: rest), rfl,
      (matchAt_iff _).mpr ⟨t, ws, c, rest, rfl, hmap, hws, hc⟩⟩

/-- C9: with zero detected tables the run prints the informational message
`No tables found in the PDF.`, exits with code 0, and writes no output
file. -/
theorem c9_zero_tables_normal_exit :
    ∀ outputPath : String,
      (runExtraction [] outputPath).exitCode = 0 ∧
      (runExtraction [] outputPath).outputWritten = false ∧
      "No tables found in the PDF." ∈ (runExtraction [] outputPath).messages := by
  intro p
  refine ⟨rfl, rfl, ?_⟩
  simp [runExtraction]

/-- C10: the assembler interpolates the caption string verbatim — without
HTML escaping — into the heading element, so HTML-special characters such
as `<` and `&` in a caption appear unescaped as raw markup. -/
theorem c10_caption_not_escaped :
    (∀ c h : String, (tablesContent [(c, h)]).data =
        "<h3 style=\"text-align: center; font-weight: bold; margin-top: 40px; padding-bottom: 5px;\">".data
          ++ c.data ++ "</h3>\n".data ++ "<div class=\"table-container\">".data
          ++ h.data ++ "</div>\n".data) ∧
      hasSubstr "<em>&".data (tablesContent [("Table 1 <em>&", "x")]).data = true ∧
      htmlEscape "Table 1 <em>&" ≠ "Table 1 <em>&" := by
  refine ⟨?_, by decide, by decide⟩
  intro c h
  show ((("" : String) ++ headingFragment c) ++ tableFragment h).data = _
  simp [String.data_append, headingFragment, tableFragment, List.append_assoc,
    show ("" : String).data = [] from rfl]

theorem map_eq_self_of {α : Type} (f : α → α) :
    ∀ l : List α, (∀ x ∈ l, f x = x) → l.map f = l := by
  intro l
  induction l with
  | nil => intro _; rfl
  | cons x xs ih =>
    intro h
    rw [List.map_cons, h x (List.mem_cons_self x xs),
      ih (fun y hy => h y (List.mem_cons_of_mem x hy))]

/-- C4 (counterexample): the program drops any column whose stripped
header merely starts with `Unnamed` (the anchored regex `'^Unnamed'`);
the header `"Unnamedness"` is dropped although it is neither empty nor of
the claimed placeholder form prefix + separator + number. -/
theorem c4_placeholder_prefix_counterexample :
    normalizeTable [["Unnamedness", "A"], ["x", "y"]] = some (["A"], [["y"]]) ∧
      pyStrip "Unnamedness" ≠ "" ∧
      specPlaceholder "Unnamedness" = false := by
  decide

/-- C4 (amended): during normalization a column is dropped exactly when
its whitespace-stripped header is the empty string or starts with the
fixed prefix `Unnamed` (no separator-and-number after the prefix is
required); the scenario of the claim holds as stated. -/
theorem c4_column_drop_characterization :
    (∀ (header : List String) (data : List (List String)),
        normalizeTable (header :: data) =
          some ((header.map pyStrip).filter
                  (fun h => !(h == "") && !(hasPrefixList "Unnamed".data h.data)),
                data.map (filterMask ((header.map pyStrip).map keepHeader)))) ∧
      normalizeTable [["", "Name", "Unnamed: 2", "Score"], ["x", "Alice", "y", "9"]] =
        some (["Name", "Score"], [["Alice", "9"]]) := by
  refine ⟨?_, by decide⟩
  intro header data
  show some (filterMask ((header.map pyStrip).map keepHeader) (header.map pyStrip),
             data.map (filterMask ((header.map pyStrip).map keepHeader))) = _
  rw [filterMask_map_filter keepHeader (header.map pyStrip)]
  rfl

/-- C5: normalization removes the same set of column indices — those whose
stripped header is blank or placeholder-named — from every data row: the
very mask computed from the header filters every row, every normalized
data row has exactly as many cells as the normalized header, and the
normalized header contains no blank and no placeholder-named entry. -/
theorem c5_consistent_column_filter
    (header : List String) (data : List (List String))
    (H : List String) (D : List (List String))
    (hlen : ∀ r ∈ data, r.length = header.length)
    (hnorm : normalizeTable (header :: data) = some (H, D)) :
    D = data.map (filterMask ((header.map pyStrip).map keepHeader)) ∧
      (∀ r ∈ D, r.length = H.length) ∧
      (∀ h ∈ H, ¬(h = "") ∧ hasPrefixList "Unnamed".data h.data = false) := by
  have hinj : (filterMask ((header.map pyStrip).map keepHeader) (header.map pyStrip),
      data.map (filterMask ((header.map pyStrip).map keepHeader))) = (H, D) := by
    exact Option.some.inj hnorm
  have hH : H = filterMask ((header.map pyStrip).map keepHeader) (header.map pyStrip) :=
    (congrArg Prod.fst hinj).symm
  have hD : D = data.map (filterMask ((header.map pyStrip).map keepHeader)) :=
    (congrArg Prod.snd hinj).symm
  refine ⟨hD, ?_, ?_⟩
  · intro r hr
    rw [hD] at hr
    obtain ⟨r0, hr0, rfl⟩ := List.mem_map.mp hr
    rw [hH]
    exact length_filterMask_congr ((header.map pyStrip).map keepHeader) r0 (header.map pyStrip)
      (by simp [hlen r0 hr0]) (by simp)
  · intro h hh
    rw [hH] at hh
    have hk : keepHeader h = true := mem_filterMask_map keepHeader (header.map pyStrip) h hh
    simp only [keepHeader, Bool.and_eq_true, Bool.not_eq_true', beq_eq_false_iff_ne,
      ne_eq] at hk
    exact hk

/-- Witness for C5 on the spec's scenario table. -/
theorem c5_consistent_column_filter_witness :
    (∀ r ∈ [["x", "Alice", "y", "9"]],
        r.length = (["", "Name", "Unnamed: 2", "Score"] : List String).length) ∧
      ([["Alice", "9"]] = [["x", "Alice", "y", "9"]].map
          (filterMask (((["", "Name", "Unnamed: 2", "Score"] : List String).map pyStrip).map keepHeader)) ∧
        (∀ r ∈ [["Alice", "9"]], r.length = (["Name", "Score"] : List String).length) ∧
        (∀ h ∈ (["Name", "Score"] : List String),
          ¬(h = "") ∧ hasPrefixList "Unnamed".data h.data = false)) :=
  ⟨by decide,
    c5_consistent_column_filter ["", "Name", "Unnamed: 2", "Score"] [["x", "Alice", "y", "9"]]
      ["Name", "Score"] [["Alice", "9"]] (by decide) (by decide)⟩

/-- C6: when the caption locator finds a matching block (blocks are
scanned bottom-to-top, so a matching last block is taken first), the
caption returned is that block's entire text trimmed of surrounding
whitespace with every internal line break collapsed to a single space;
the returned caption never contains a newline, and the spec's scenario
holds. -/
theorem c6_caption_text_processing :
    (∀ (bs : List String) (t : String), captionSearch t.data = true →
        findCaption (bs ++ [t]) = replaceNl (pyStrip t)) ∧
      (∀ bs : List String, '\n' ∉ (findCaption bs).data) ∧
      findCaption ["Table 4: Revenue by Quarter\n(in millions)"] =
        "Table 4: Revenue by Quarter (in millions)" := by
  refine ⟨?_, ?_, by decide⟩
  · intro bs t ht
    unfold findCaption
    rw [List.reverse_append, List.reverse_singleton, List.singleton_append]
    simp [scanBlocks, ht]
  · intro bs
    exact scanBlocks_no_nl bs.reverse

/-- Witness for C6: a matching block as the last (closest-to-table)
block. -/
theorem c6_caption_text_processing_witness :
    captionSearch "Table 9".data = true ∧
      findCaption ([] ++ ["Table 9"]) = replaceNl (pyStrip "Table 9") :=
  ⟨by decide, c6_caption_text_processing.1 [] "Table 9" (by decide)⟩

/-- C7 (counterexample): the newline-to-`<br>` substitution acts on the
data rows only (`applymap` acts element-wise on the frame's values after
row 0 was promoted to the column index), so a surviving header cell keeps
its embedded line break: for the table `[["A\nB", "Col"], ["x\ny", "z"]]`
the data cell becomes `"x<br>y"` while the surviving header cell `"A\nB"`
still contains a newline. -/
theorem c7_header_cell_counterexample :
    processTable [["A\nB", "Col"], ["x\ny", "z"]] =
        some (["A\nB", "Col"], [["x<br>y", "z"]]) ∧
      '\n' ∈ "A\nB".data := by
  decide

/-- C7 (amended): in rich mode every surviving data cell of the
normalized table has each embedded line break replaced by `<br>` (header
cells are not substituted), and cell values are not HTML-escaped at
serialization, so the inserted `<br>` tokens survive verbatim in the
output fragment. -/
theorem c7_data_cell_linebreaks :
    (∀ (rows : List (List String)) (H : List String) (D : List (List String)),
        processTable rows = some (H, D) → ∀ r ∈ D, ∀ c ∈ r, '\n' ∉ c.data) ∧
      (∀ s : String, serializeCell false s = "<td>" ++ s ++ "</td>") ∧
      processTable [["Col"], ["a\nb"]] = some (["Col"], [["a<br>b"]]) ∧
      serializeCell false "a<br>b" = "<td>a<br>b</td>" := by
  refine ⟨?_, fun s => rfl, by decide, by decide⟩
  intro rows H D hp r hr c hc
  have hstep : ∃ t, normalizeTable rows = some t ∧
      D = t.2.map (fun row => row.map replaceNlBr) := by
    cases hn : normalizeTable rows with
    | none => rw [processTable, hn] at hp; exact absurd hp (by simp)
    | some t =>
      rw [processTable, hn] at hp
      simp only [Option.map_some', Option.some.injEq] at hp
      exact ⟨t, rfl, (congrArg Prod.snd hp).symm⟩
  obtain ⟨t, _, hD⟩ := hstep
  rw [hD] at hr
  obtain ⟨r0, _, rfl⟩ := List.mem_map.mp hr
  obtain ⟨c0, _, rfl⟩ := List.mem_map.mp hc
  exact replaceNlBrList_no_nl c0.data

/-- Witness for C7 at the concrete one-column table. -/
theorem c7_data_cell_linebreaks_witness :
    processTable [["Col"], ["a\nb"]] = some (["Col"], [["a<br>b"]]) ∧
      ∀ r ∈ [["a<br>b"]], ∀ c ∈ r, '\n' ∉ c.data :=
  ⟨by decide,
    c7_data_cell_linebreaks.1 [["Col"], ["a\nb"]] ["Col"] [["a<br>b"]] (by decide)⟩

/-- C8 (counterexample): the header cell `" A "` is neither blank nor
placeholder-named, yet normalization rewrites it to `"A"` by whitespace
stripping — a content change that is not a line-break substitution — so
the claim fails for tables whose header cells carry surrounding
whitespace. -/
theorem c8_header_strip_counterexample :
    processTable [[" A "], ["x"]] = some (["A"], [["x"]]) ∧
      pyStrip " A " ≠ "" ∧
      hasPrefixList "Unnamed".data " A ".data = false ∧
      replaceNlBr " A " = " A " ∧
      ¬(" A " = "A") := by
  decide

/-- C8 (amended): for every table whose header cells are already
whitespace-stripped, non-empty and not placeholder-named (and whose rows
have the header's width), normalization drops no columns, leaves the
header unchanged, and changes no cell content except the line-break
substitution on the data cells. -/
theorem c8_normalization_idempotent
    (header : List String) (data : List (List String))
    (hhdr : ∀ h ∈ header, pyStrip h = h ∧ ¬(h = "") ∧
      hasPrefixList "Unnamed".data h.data = false)
    (hlen : ∀ r ∈ data, r.length = header.length) :
    processTable (header :: data) =
      some (header, data.map (fun r => r.map replaceNlBr)) := by
  have hsh : header.map pyStrip = header :=
    map_eq_self_of pyStrip header (fun h hh => (hhdr h hh).1)
  have hmask : ∀ h ∈ header, keepHeader h = true := by
    intro h hh
    obtain ⟨_, hne, hpre⟩ := hhdr h hh
    simp [keepHeader, hpre, hne]
  have hfil : ∀ r : List String, r.length = header.length →
      filterMask (header.map keepHeader) r = r := by
    intro r hr
    apply filterMask_all_true
    · intro b hb
      obtain ⟨h, hh, rfl⟩ := List.mem_map.mp hb
      exact hmask h hh
    · simp [hr]
  show (normalizeTable (header :: data)).map richTransform = _
  rw [show normalizeTable (header :: data) =
      some (filterMask ((header.map pyStrip).map keepHeader) (header.map pyStrip),
            data.map (filterMask ((header.map pyStrip).map keepHeader))) from rfl]
  rw [hsh]
  rw [hfil header rfl]
  rw [map_eq_self_of (filterMask (header.map keepHeader)) data
    (fun r hr => hfil r (hlen r hr))]
  rfl

/-- Witness for C8 on an already-clean header with a newline in a data
cell. -/
theorem c8_normalization_idempotent_witness :
    (∀ h ∈ (["Name", "Score"] : List String), pyStrip h = h ∧ ¬(h = "") ∧
        hasPrefixList "Unnamed".data h.data = false) ∧
      (∀ r ∈ [["a\nb", "9"]], r.length = (["Name", "Score"] : List String).length) ∧
      processTable [["Name", "Score"], ["a\nb", "9"]] =
        some (["Name", "Score"], [["a\nb", "9"]].map (fun r => r.map replaceNlBr)) :=
  ⟨by decide, by decide,
    c8_normalization_idempotent ["Name", "Score"] [["a\nb", "9"]] (by decide) (by decide)⟩

end ExtractTables
